import Mathlib

/-!
Verification of the CheckOff task-list core, a shallow embedding of the
task-store logic in `src/app/(tabs)/index.tsx` (the variant with filters,
stats and clearCompleted).  Tasks are records with `id`, `title` and
`completed`; mutations are pure functions from the current task list to
the next one, exactly mirroring the `setTasks` updater functions of the
source.  JavaScript number arithmetic in the completion rate is modelled
by exact binary64 rounding over ℚ; `Date.now()` is modelled as an
explicit `now : Nat` argument and its `.toString()` as `Nat.repr`.
-/

namespace CheckOff

/-- The `TodoItem` record of the source: `{ id: string; title: string;
completed: boolean }`. -/
structure TodoItem where
  id : String
  title : String
  completed : Bool
deriving DecidableEq, Repr

/-- The `Filter` type of the source: `'all' | 'active' | 'completed'`. -/
inductive Filter where
  | all
  | active
  | completed
deriving DecidableEq, Repr

/-- The component state relevant to the core: the task list, the text
input and the active filter (the three `useState` cells of the source). -/
structure StoreState where
  tasks : List TodoItem
  inputValue : String
  filter : Filter
deriving Repr

/-- The ECMAScript whitespace set (WhiteSpace ∪ LineTerminator of
ECMA-262) recognised by `String.prototype.trim`. -/
def isJsWhitespace (c : Char) : Bool :=
  [9, 10, 11, 12, 13, 32, 160, 5760, 8192, 8193, 8194, 8195, 8196, 8197, 8198,
   8199, 8200, 8201, 8202, 8232, 8233, 8239, 8287, 12288, 65279].contains c.toNat

/-- JavaScript `String.prototype.trim`: drop leading and trailing
ECMAScript whitespace. -/
def jsTrim (s : String) : String :=
  String.mk (((s.data.dropWhile isJsWhitespace).reverse.dropWhile isJsWhitespace).reverse)

/-- Function `addTask` from the source, with `Date.now()` passed in as `now`:
trims the input; if the trimmed value is falsy (empty) it returns the
list unchanged, otherwise it prepends a new task with id
`Date.now().toString()`, the trimmed title and `completed = false`. -/
def addTask (now : Nat) (inputValue : String) (currentTasks : List TodoItem) :
    List TodoItem :=
  let trimmedValue := jsTrim inputValue
  if trimmedValue = "" then currentTasks
  else { id := Nat.repr now, title := trimmedValue, completed := false } :: currentTasks

/-- Function `toggleTask` from the source: maps over the list, replacing every
task whose id matches with a copy whose `completed` flag is negated. -/
def toggleTask (id : String) (currentTasks : List TodoItem) : List TodoItem :=
  currentTasks.map fun task =>
    if task.id = id then { task with completed := !task.completed } else task

/-- Function `deleteTask` from the source: keeps exactly the tasks whose id
differs from the argument (`task.id !== id`). -/
def deleteTask (id : String) (currentTasks : List TodoItem) : List TodoItem :=
  currentTasks.filter fun task => task.id != id

/-- Function `clearCompleted` from the source: keeps exactly the tasks whose
`completed` flag is false (`!task.completed`). -/
def clearCompleted (currentTasks : List TodoItem) : List TodoItem :=
  currentTasks.filter fun task => !task.completed

/-- Function `filteredTasks` from the source: filter to the active tasks when the
filter is `active`, to the completed tasks when it is `completed`, and
return the list itself otherwise. -/
def filteredTasks (filter : Filter) (tasks : List TodoItem) : List TodoItem :=
  if filter = Filter.active then tasks.filter fun task => !task.completed
  else if filter = Filter.completed then tasks.filter fun task => task.completed
  else tasks

/-- Function `setFilter` from the source: the `useState` setter of the filter
cell; it can change nothing but the `filter` field of the state. -/
def setFilter (f : Filter) (s : StoreState) : StoreState :=
  { s with filter := f }

/-- Value `totalCount` from the source: `tasks.length`. -/
def totalCount (tasks : List TodoItem) : Nat := tasks.length

/-- Value `completedCount` from the source:
`tasks.filter((task) => task.completed).length`. -/
def completedCount (tasks : List TodoItem) : Nat :=
  (tasks.filter fun task => task.completed).length

/-- Value `activeCount` from the source: `totalCount - completedCount` (exact,
since the completed tasks are a sublist of all tasks). -/
def activeCount (tasks : List TodoItem) : Nat :=
  totalCount tasks - completedCount tasks

/-- Round to the nearest integer, ties to even: the rounding rule of
IEEE 754 binary64 arithmetic. -/
def rne (x : ℚ) : ℤ :=
  if x - ⌊x⌋ < 1/2 then ⌊x⌋
  else if 1/2 < x - ⌊x⌋ then ⌊x⌋ + 1
  else if ⌊x⌋ % 2 = 0 then ⌊x⌋ else ⌊x⌋ + 1

/-- The IEEE 754 binary64 (JavaScript number) rounding of a nonnegative
rational: round to the nearest value with a 53-bit significand, ties to
even, with the exponent clamped at -1022 below (subnormal range).
Overflow is not modelled; every value in the completion-rate
computation is at most about 100. -/
def fl64 (q : ℚ) : ℚ :=
  if q ≤ 0 then 0
  else (rne (q / 2 ^ (max (Int.log 2 q) (-1022) - 52)) : ℚ) *
    2 ^ (max (Int.log 2 q) (-1022) - 52)

/-- Value `completionRate` from the source:
`totalCount ? Math.round((completedCount / totalCount) * 100) : 0`.
The two JavaScript number operations round to binary64: the division
`completedCount / totalCount` (both operands exact, array lengths being
far below 2^53) gives `fl64 (c / t)`, the multiplication by the exact
constant 100 gives `fl64 (x * 100)`; ECMA-262 defines `Math.round` on
the resulting double exactly as the closest integer with ties toward
+∞, i.e. `round`. -/
def completionRate (tasks : List TodoItem) : ℤ :=
  if totalCount tasks ≠ 0 then
    round (fl64 (fl64 ((completedCount tasks : ℚ) / (totalCount tasks : ℚ)) * 100))
  else 0

/-- A user-triggered mutation of the task list, with the `Date.now()`
value observed by `addTask` made explicit. -/
inductive Op where
  | add (now : Nat) (raw : String)
  | toggle (id : String)
  | delete (id : String)
  | clear
deriving DecidableEq, Repr

/-- One mutation step on the task list. -/
def applyOp (tasks : List TodoItem) : Op → List TodoItem
  | .add now raw => addTask now raw tasks
  | .toggle i => toggleTask i tasks
  | .delete i => deleteTask i tasks
  | .clear => clearCompleted tasks

/-- The task list reached by running a sequence of mutations from the
initial empty list. -/
def runOps (ops : List Op) : List TodoItem := ops.foldl applyOp []

/-- The `Date.now()` values observed by the `addTask` calls of a
mutation sequence. -/
def addTimes (ops : List Op) : List Nat :=
  ops.filterMap fun op =>
    match op with
    | .add now _ => some now
    | _ => none

/-- Decimal digit value of a character; used to read back the digit
characters produced by `Nat.digitChar`. -/
def digitVal (c : Char) : Nat := c.toNat - 48

/-- Read a decimal digit string back into the number it denotes;
left inverse of `Nat.repr` on its image. -/
def decodeDigits (l : List Char) : Nat :=
  l.foldl (fun acc c => acc * 10 + digitVal c) 0

/-- The character `{`. -/
def lbrace : Char := Char.ofNat 123

/-- The character `}`. -/
def rbrace : Char := Char.ofNat 125

/-- Lower-case hexadecimal digit character, as emitted by
`JSON.stringify` in `\u00XX` escapes. -/
def hexDigitChar (n : Nat) : Char :=
  if n < 10 then Char.ofNat (48 + n) else Char.ofNat (87 + n)

/-- The escaping `JSON.stringify` applies to one character of a string:
`"` and `\` get a backslash escape, the control characters with
short escapes use them, the remaining control characters become
`\u00XX`, and every other character stands for itself. -/
def escapeChar (c : Char) : List Char :=
  if c = '"' then ['\\', '"']
  else if c = '\\' then ['\\', '\\']
  else if c.toNat = 8 then ['\\', 'b']
  else if c.toNat = 9 then ['\\', 't']
  else if c.toNat = 10 then ['\\', 'n']
  else if c.toNat = 12 then ['\\', 'f']
  else if c.toNat = 13 then ['\\', 'r']
  else if c.toNat < 32 then
    ['\\', 'u', '0', '0', hexDigitChar (c.toNat / 16), hexDigitChar (c.toNat % 16)]
  else [c]

/-- The map `escapeChar` applied across a character list. -/
def escapeList : List Char → List Char
  | [] => []
  | c :: cs => escapeChar c ++ escapeList cs

/-- A JSON string literal: quote, escaped content, quote. -/
def encodeJString (s : String) : List Char :=
  '"' :: (escapeList s.data ++ ['"'])

/-- JSON booleans. -/
def encodeBool : Bool → List Char
  | true => ['t', 'r', 'u', 'e']
  | false => ['f', 'a', 'l', 's', 'e']

/-- The characters `JSON.stringify` emits before the id value of a task
object: `{"id":`. -/
def idKey : List Char := [lbrace, '"', 'i', 'd', '"', ':']

/-- The characters between the id value and the title value:
`,"title":`. -/
def titleKey : List Char := [',', '"', 't', 'i', 't', 'l', 'e', '"', ':']

/-- The characters between the title value and the completed value:
`,"completed":`. -/
def completedKey : List Char :=
  [',', '"', 'c', 'o', 'm', 'p', 'l', 'e', 't', 'e', 'd', '"', ':']

/-- Encoding of one `TodoItem` by `JSON.stringify`: keys in insertion order
(id, title, completed), no whitespace. -/
def encodeTask (t : TodoItem) : List Char :=
  idKey ++ encodeJString t.id ++ titleKey ++ encodeJString t.title ++
    completedKey ++ encodeBool t.completed ++ [rbrace]

/-- Comma-separated task objects (the body of the JSON array). -/
def encodeTasksSep : List TodoItem → List Char
  | [] => []
  | [t] => encodeTask t
  | t :: ts => encodeTask t ++ ',' :: encodeTasksSep ts

/-- The `JSON.stringify(tasks)` call performed by `saveData`: a JSON array of
task objects. -/
def stringifyTasks (ts : List TodoItem) : String :=
  String.mk ('[' :: (encodeTasksSep ts ++ [']']))

/-- Value of one hexadecimal digit character, if it is one. -/
def hexVal (c : Char) : Option Nat :=
  if 48 ≤ c.toNat ∧ c.toNat ≤ 57 then some (c.toNat - 48)
  else if 97 ≤ c.toNat ∧ c.toNat ≤ 102 then some (c.toNat - 87)
  else if 65 ≤ c.toNat ∧ c.toNat ≤ 70 then some (c.toNat - 55)
  else none

/-- The character denoted by a single-character JSON escape `\e`,
if `e` is one of the short escapes. -/
def unescapeChar (e : Char) : Option Char :=
  if e = '"' then some '"'
  else if e = '\\' then some '\\'
  else if e = '/' then some '/'
  else if e = 'b' then some (Char.ofNat 8)
  else if e = 't' then some (Char.ofNat 9)
  else if e = 'n' then some (Char.ofNat 10)
  else if e = 'f' then some (Char.ofNat 12)
  else if e = 'r' then some (Char.ofNat 13)
  else none

/-- Parse the body of a JSON string literal (after the opening quote)
up to and including the closing quote, returning the decoded characters
and the remaining input.  Raw control characters are rejected, as in
`JSON.parse`. -/
def parseJStringBody : List Char → Option (List Char × List Char)
  | [] => none
  | c :: rest =>
    if c = '"' then some ([], rest)
    else if c = '\\' then
      match rest with
      | [] => none
      | e :: rest2 =>
        if e = 'u' then
          match rest2 with
          | h1 :: h2 :: h3 :: h4 :: rest3 =>
            match hexVal h1, hexVal h2, hexVal h3, hexVal h4 with
            | some a, some b, some m, some d =>
              match parseJStringBody rest3 with
              | some (s, r) => some (Char.ofNat (((a * 16 + b) * 16 + m) * 16 + d) :: s, r)
              | none => none
            | _, _, _, _ => none
          | _ => none
        else
          match unescapeChar e with
          | some ch =>
            match parseJStringBody rest2 with
            | some (s, r) => some (ch :: s, r)
            | none => none
          | none => none
    else if c.toNat < 32 then none
    else
      match parseJStringBody rest with
      | some (s, r) => some (c :: s, r)
      | none => none

/-- Consume an expected literal character sequence. -/
def dropLit : List Char → List Char → Option (List Char)
  | [], l => some l
  | _ :: _, [] => none
  | p :: ps, c :: cs => if c = p then dropLit ps cs else none

/-- Parse a JSON string literal including its quotes. -/
def parseJString (l : List Char) : Option (List Char × List Char) :=
  match l with
  | [] => none
  | c :: rest => if c = '"' then parseJStringBody rest else none

/-- Parse a JSON boolean. -/
def parseBool (l : List Char) : Option (Bool × List Char) :=
  match dropLit ['t', 'r', 'u', 'e'] l with
  | some r => some (true, r)
  | none =>
    match dropLit ['f', 'a', 'l', 's', 'e'] l with
    | some r => some (false, r)
    | none => none

/-- Parse one task object of the canonical shape produced by
`JSON.stringify` on a `TodoItem`. -/
def parseTaskObj (l : List Char) : Option (TodoItem × List Char) :=
  (dropLit idKey l).bind fun l1 =>
  (parseJString l1).bind fun p1 =>
  (dropLit titleKey p1.2).bind fun l3 =>
  (parseJString l3).bind fun p2 =>
  (dropLit completedKey p2.2).bind fun l5 =>
  (parseBool l5).bind fun p3 =>
  match p3.2 with
  | c :: l7 =>
    if c = rbrace then
      some ({ id := String.mk p1.1, title := String.mk p2.1, completed := p3.1 }, l7)
    else none
  | [] => none

/-- Parse one or more comma-separated task objects.  The fuel bounds the
number of tasks; every task object consumes at least one character, so
the length of the input plus one is always enough. -/
def parseTasksAux : Nat → List Char → Option (List TodoItem × List Char)
  | 0, _ => none
  | fuel + 1, l =>
    (parseTaskObj l).bind fun p =>
      match p.2 with
      | c :: r2 =>
        if c = ',' then
          (parseTasksAux fuel r2).map fun q => (p.1 :: q.1, q.2)
        else some ([p.1], p.2)
      | [] => some ([p.1], [])

/-- Parse a whole JSON array of task objects, requiring the input to be
fully consumed. -/
def parseTasksChars (l : List Char) : Option (List TodoItem) :=
  match l with
  | [] => none
  | c :: rest =>
    if c = '[' then
      if rest = [']'] then some []
      else
        (parseTasksAux (rest.length + 1) rest).bind fun p =>
          match p.2 with
          | e :: r2 => if e = ']' then (if r2 = [] then some p.1 else none) else none
          | [] => none
    else none

/-- The deserialization direction of the persistence format: a parser
for exactly the canonical task-array shape that `saveData` writes, the
inverse of `stringifyTasks`.  The behaviour of `JSON.parse` on
arbitrary blobs is modelled separately by `jsonParse` below. -/
def parseTasks (s : String) : Option (List TodoItem) := parseTasksChars s.data

/-- JSON whitespace: space, tab, line feed, carriage return (the exact
`JSON.parse` whitespace set). -/
def jsonWs (c : Char) : Bool :=
  c = ' ' || c.toNat = 9 || c.toNat = 10 || c.toNat = 13

/-- Skip JSON whitespace. -/
def skipWs (l : List Char) : List Char := l.dropWhile jsonWs

/-- A JSON value as produced by `JSON.parse`.  Numbers keep their raw
lexeme: their numeric value is never needed here. -/
inductive Json where
  | null
  | bool (b : Bool)
  | num (raw : String)
  | str (s : String)
  | arr (elems : List Json)
  | obj (fields : List (String × Json))
deriving Repr

/-- Lex the exponent part of a JSON number, if present. -/
def lexExp (pre : List Char) (l : List Char) : Option (List Char × List Char) :=
  match l with
  | c :: r =>
    if c = 'e' ∨ c = 'E' then
      match r with
      | s :: r2 =>
        if s = '+' ∨ s = '-' then
          if r2.takeWhile Char.isDigit = [] then none
          else some (pre ++ c :: s :: r2.takeWhile Char.isDigit, r2.dropWhile Char.isDigit)
        else
          if r.takeWhile Char.isDigit = [] then none
          else some (pre ++ c :: r.takeWhile Char.isDigit, r.dropWhile Char.isDigit)
      | [] => none
    else some (pre, l)
  | [] => some (pre, [])

/-- Lex the fractional part of a JSON number, if present, then the
exponent. -/
def lexFrac (pre : List Char) (l : List Char) : Option (List Char × List Char) :=
  match l with
  | c :: r =>
    if c = '.' then
      if r.takeWhile Char.isDigit = [] then none
      else lexExp (pre ++ c :: r.takeWhile Char.isDigit) (r.dropWhile Char.isDigit)
    else lexExp pre l
  | [] => lexExp pre []

/-- Lex the digits of a JSON number after the optional sign: `0` or a
nonzero digit followed by digits (leading zeros are a syntax error),
then fraction and exponent. -/
def lexNumBody (neg : List Char) (l : List Char) : Option (List Char × List Char) :=
  match l with
  | c :: r =>
    if c = '0' then lexFrac (neg ++ ['0']) r
    else if c.isDigit then
      lexFrac (neg ++ c :: r.takeWhile Char.isDigit) (r.dropWhile Char.isDigit)
    else none
  | [] => none

/-- Lex a JSON number, sign included. -/
def lexNumber (l : List Char) : Option (List Char × List Char) :=
  match l with
  | '-' :: r => lexNumBody ['-'] r
  | _ => lexNumBody [] l

mutual

/-- Parse one JSON value: whitespace, then `null`, `true`, `false`, a
string, an array, an object or a number.  The fuel only serves
termination; one unit is spent per nested value and the top-level call
supplies more than the input length, which can never run out. -/
def parseJsonValue : Nat → List Char → Option (Json × List Char)
  | 0, _ => none
  | fuel + 1, l =>
    match skipWs l with
    | [] => none
    | c :: rest =>
      if c = 'n' then (dropLit ['u', 'l', 'l'] rest).map fun r => (Json.null, r)
      else if c = 't' then (dropLit ['r', 'u', 'e'] rest).map fun r => (Json.bool true, r)
      else if c = 'f' then (dropLit ['a', 'l', 's', 'e'] rest).map fun r => (Json.bool false, r)
      else if c = '"' then (parseJStringBody rest).map fun p => (Json.str (String.mk p.1), p.2)
      else if c = '[' then
        match skipWs rest with
        | d :: r2 =>
          if d = ']' then some (Json.arr [], r2)
          else (parseJsonElems fuel rest).map fun p => (Json.arr p.1, p.2)
        | [] => none
      else if c = lbrace then
        match skipWs rest with
        | d :: r2 =>
          if d = rbrace then some (Json.obj [], r2)
          else (parseJsonFields fuel rest).map fun p => (Json.obj p.1, p.2)
        | [] => none
      else (lexNumber (c :: rest)).map fun p => (Json.num (String.mk p.1), p.2)

/-- Parse one or more comma-separated array elements and the closing
bracket. -/
def parseJsonElems : Nat → List Char → Option (List Json × List Char)
  | 0, _ => none
  | fuel + 1, l =>
    (parseJsonValue fuel l).bind fun p =>
      match skipWs p.2 with
      | c :: r =>
        if c = ',' then (parseJsonElems fuel r).map fun q => (p.1 :: q.1, q.2)
        else if c = ']' then some ([p.1], r)
        else none
      | [] => none

/-- Parse one or more comma-separated object members and the closing
brace. -/
def parseJsonFields : Nat → List Char → Option (List (String × Json) × List Char)
  | 0, _ => none
  | fuel + 1, l =>
    match skipWs l with
    | c :: r =>
      if c = '"' then
        (parseJStringBody r).bind fun pk =>
          match skipWs pk.2 with
          | d :: r2 =>
            if d = ':' then
              (parseJsonValue fuel r2).bind fun pv =>
                match skipWs pv.2 with
                | e :: r3 =>
                  if e = ',' then
                    (parseJsonFields fuel r3).map fun q =>
                      ((String.mk pk.1, pv.1) :: q.1, q.2)
                  else if e = rbrace then some ([(String.mk pk.1, pv.1)], r3)
                  else none
                | [] => none
            else none
          | [] => none
      else none
    | [] => none

end

/-- The model of `JSON.parse`: parse one JSON value with surrounding
whitespace, requiring the input to be fully consumed; `none` models the
SyntaxError throw. -/
def jsonParse (s : String) : Option Json :=
  match parseJsonValue (s.data.length + 1) s.data with
  | some (v, rest) => if skipWs rest = [] then some v else none
  | none => none

/-- Last-occurrence field lookup: `JSON.parse` keeps the last value of
a duplicated object key. -/
def jsGetField (fields : List (String × Json)) (k : String) : Option Json :=
  ((fields.filter fun f => f.1 == k).getLast?).map Prod.snd

/-- Read one parsed JSON value back as a `TodoItem`: an object carrying
`id` and `title` strings and a `completed` boolean (extra fields are
ignored, as the program ignores them). -/
def decodeTask (v : Json) : Option TodoItem :=
  match v with
  | Json.obj fields =>
    match jsGetField fields "id", jsGetField fields "title",
        jsGetField fields "completed" with
    | some (Json.str i), some (Json.str t), some (Json.bool b) =>
        some { id := i, title := t, completed := b }
    | _, _, _ => none
  | _ => none

/-- Read a list of parsed JSON values back as tasks. -/
def decodeTasks : List Json → Option (List TodoItem)
  | [] => some []
  | v :: vs => (decodeTask v).bind fun t => (decodeTasks vs).map fun ts => t :: ts

/-- Read a parsed JSON value back as a task list: an array of task
objects. -/
def decodeTaskList (v : Json) : Option (List TodoItem) :=
  match v with
  | Json.arr elems => decodeTasks elems
  | _ => none

/-- Outcome of `AsyncStorage.getItem(STORAGE_KEY)`: the storage can be
unreachable (the promise rejects), hold nothing under the key, or hold
a blob. -/
inductive StorageResult where
  | unavailable
  | missing
  | found (blob : String)
deriving DecidableEq, Repr

/-- Function `loadData` from the source, acting on the current task
state.  The result is `some` of the next task state whenever that state
is a task list: on a storage failure the `catch` only logs, keeping the
state; a falsy stored value (`null` or the empty string) skips the
`setTasks`; a `JSON.parse` throw lands in the same `catch`, keeping the
state; a parsed task-list value is installed via `setTasks`.  When the
parsed JSON is not a task list the untyped `setTasks` installs it all
the same; that state lies outside the `List TodoItem` model and is
returned as `none`. -/
def loadData (r : StorageResult) (tasks : List TodoItem) : Option (List TodoItem) :=
  match r with
  | .unavailable => some tasks
  | .missing => some tasks
  | .found blob =>
    if blob = "" then some tasks
    else
      match jsonParse blob with
      | none => some tasks
      | some v => decodeTaskList v

/-- Hydration: `loadData` run once at startup, on the initial empty
list, before any mutation. -/
def hydrate (r : StorageResult) : Option (List TodoItem) := loadData r []

example : addTask 5 " hi " [] = [{ id := "5", title := "hi", completed := false }] := by
  decide

example : runOps [Op.add 5 "a", Op.add 5 "b"] =
    [{ id := "5", title := "b", completed := false },
     { id := "5", title := "a", completed := false }] := by
  decide

example :
    parseTasks (stringifyTasks [{ id := "5", title := "a\"b", completed := true }]) =
      some [{ id := "5", title := "a\"b", completed := true }] := by
  decide

example : parseTasks "[]" = some [] := by decide

example : parseTasks "nonsense" = none := by decide

example : hydrate .unavailable = some [] := by decide

/-! ### Injectivity of `Nat.repr` (`Date.now().toString()`) -/

theorem toDigitsCore_eq_append (b : Nat) :
    ∀ (fuel n : Nat) (ds : List Char),
      Nat.toDigitsCore b fuel n ds = Nat.toDigitsCore b fuel n [] ++ ds := by
  intro fuel
  induction fuel with
  | zero => intro n ds; simp [Nat.toDigitsCore]
  | succ f ih =>
    intro n ds
    simp only [Nat.toDigitsCore]
    by_cases h : n / b = 0
    · simp [h]
    · simp only [h, if_false]
      rw [ih (n / b) (Nat.digitChar (n % b) :: ds), ih (n / b) [Nat.digitChar (n % b)]]
      simp

theorem toDigitsCore_fuel_irrel (b : Nat) (hb : 2 ≤ b) :
    ∀ (n f1 f2 : Nat), n < f1 → n < f2 →
      Nat.toDigitsCore b f1 n [] = Nat.toDigitsCore b f2 n [] := by
  intro n
  induction n using Nat.strong_induction_on with
  | _ n ih =>
    intro f1 f2 h1 h2
    match f1, f2 with
    | g1 + 1, g2 + 1 =>
      simp only [Nat.toDigitsCore]
      by_cases h : n / b = 0
      · simp [h]
      · simp only [h, if_false]
        rw [toDigitsCore_eq_append b g1, toDigitsCore_eq_append b g2]
        have hn : 0 < n := by
          rcases Nat.eq_zero_or_pos n with h0 | h0
          · exact absurd (by simp [h0]) h
          · exact h0
        have hdiv : n / b < n := Nat.div_lt_self hn (by omega)
        rw [ih (n / b) hdiv g1 g2 (by omega) (by omega)]

theorem decodeDigits_append (l : List Char) (c : Char) :
    decodeDigits (l ++ [c]) = decodeDigits l * 10 + digitVal c := by
  simp [decodeDigits, List.foldl_append]

theorem digitVal_digitChar : ∀ d : Fin 10, digitVal (Nat.digitChar d.val) = d.val := by
  decide

theorem decodeDigits_toDigitsCore :
    ∀ (n fuel : Nat), n < fuel →
      decodeDigits (Nat.toDigitsCore 10 fuel n []) = n := by
  intro n
  induction n using Nat.strong_induction_on with
  | _ n ih =>
    intro fuel hf
    match fuel with
    | f + 1 =>
      simp only [Nat.toDigitsCore]
      by_cases h : n / 10 = 0
      · simp only [h, if_true]
        have hlt : n % 10 < 10 := Nat.mod_lt _ (by omega)
        have := digitVal_digitChar ⟨n % 10, hlt⟩
        simp only [decodeDigits, List.foldl] at *
        simp [this]
        omega
      · simp only [h, if_false]
        rw [toDigitsCore_eq_append]
        rw [decodeDigits_append]
        have hn : 0 < n := by
          rcases Nat.eq_zero_or_pos n with h0 | h0
          · exact absurd (by simp [h0]) h
          · exact h0
        have hdiv : n / 10 < n := Nat.div_lt_self hn (by omega)
        rw [ih (n / 10) hdiv f (by omega)]
        have hlt : n % 10 < 10 := Nat.mod_lt _ (by omega)
        have := digitVal_digitChar ⟨n % 10, hlt⟩
        simp only [this]
        omega

/-- The map `Date.now().toString()` sends distinct timestamps to distinct id
strings. -/
theorem reprInjective : Function.Injective Nat.repr := by
  intro m n h
  have hdata : Nat.toDigits 10 m = Nat.toDigits 10 n := by
    have := congrArg String.data h
    simpa [Nat.repr, List.asString] using this
  have hm := decodeDigits_toDigitsCore m (m + 1) (by omega)
  have hn := decodeDigits_toDigitsCore n (n + 1) (by omega)
  unfold Nat.toDigits at hdata
  rw [toDigitsCore_fuel_irrel 10 (by omega) m (m + 1) (max m n + 1) (by omega)
    (by omega)] at hdata hm
  rw [toDigitsCore_fuel_irrel 10 (by omega) n (n + 1) (max m n + 1) (by omega)
    (by omega)] at hdata hn
  rw [hdata] at hm
  omega

/-! ### The id-uniqueness invariant -/

theorem addTask_eq (now : Nat) (raw : String) (ts : List TodoItem) :
    (jsTrim raw = "" ∧ addTask now raw ts = ts) ∨
    (jsTrim raw ≠ "" ∧ addTask now raw ts =
      { id := Nat.repr now, title := jsTrim raw, completed := false } :: ts) := by
  by_cases h : jsTrim raw = "" <;> simp [addTask, h]

theorem toggleTask_map_id (i : String) (ts : List TodoItem) :
    (toggleTask i ts).map TodoItem.id = ts.map TodoItem.id := by
  simp only [toggleTask, List.map_map]
  apply List.map_congr_left
  intro t _
  by_cases h : t.id = i <;> simp [h]

theorem deleteTask_sublist (i : String) (ts : List TodoItem) :
    (deleteTask i ts).Sublist ts := List.filter_sublist ts

theorem clearCompleted_sublist (ts : List TodoItem) :
    (clearCompleted ts).Sublist ts := List.filter_sublist ts

theorem runOps_ids_nodup_aux :
    ∀ (ops : List Op) (s : List TodoItem),
      (s.map TodoItem.id).Nodup →
      (∀ n ∈ addTimes ops, Nat.repr n ∉ s.map TodoItem.id) →
      ((addTimes ops).map Nat.repr).Nodup →
      ((ops.foldl applyOp s).map TodoItem.id).Nodup := by
  intro ops
  induction ops with
  | nil => intro s hs _ _; simpa using hs
  | cons op rest ih =>
    intro s hs hfresh hnd
    simp only [List.foldl_cons]
    cases op with
    | add now raw =>
      have htimes : addTimes (Op.add now raw :: rest) = now :: addTimes rest := by
        simp [addTimes]
      rw [htimes] at hfresh hnd
      simp only [List.map_cons, List.nodup_cons] at hnd
      simp only [applyOp]
      rcases addTask_eq now raw s with ⟨_, heq⟩ | ⟨_, heq⟩
      · rw [heq]
        exact ih s hs (fun n hn => hfresh n (by simp [hn])) hnd.2
      · rw [heq]
        apply ih
        · simp only [List.map_cons, List.nodup_cons]
          exact ⟨hfresh now (by simp), hs⟩
        · intro m hm
          simp only [List.map_cons, List.mem_cons]
          push_neg
          refine ⟨?_, hfresh m (by simp [hm])⟩
          intro hcontra
          exact hnd.1 (hcontra ▸ List.mem_map_of_mem Nat.repr hm)
        · exact hnd.2
    | toggle i =>
      have htimes : addTimes (Op.toggle i :: rest) = addTimes rest := by simp [addTimes]
      rw [htimes] at hfresh hnd
      simp only [applyOp]
      exact ih _ (by rwa [toggleTask_map_id])
        (by simp only [toggleTask_map_id]; exact hfresh) hnd
    | delete i =>
      have htimes : addTimes (Op.delete i :: rest) = addTimes rest := by simp [addTimes]
      rw [htimes] at hfresh hnd
      simp only [applyOp]
      have hsub : ((deleteTask i s).map TodoItem.id).Sublist (s.map TodoItem.id) :=
        (deleteTask_sublist i s).map TodoItem.id
      exact ih _ (hs.sublist hsub)
        (fun m hm hmem => hfresh m hm (hsub.subset hmem)) hnd
    | clear =>
      have htimes : addTimes (Op.clear :: rest) = addTimes rest := by simp [addTimes]
      rw [htimes] at hfresh hnd
      simp only [applyOp]
      have hsub : ((clearCompleted s).map TodoItem.id).Sublist (s.map TodoItem.id) :=
        (clearCompleted_sublist s).map TodoItem.id
      exact ih _ (hs.sublist hsub)
        (fun m hm hmem => hfresh m hm (hsub.subset hmem)) hnd

/-- Claim C1 counterexample: id generation does not guarantee
uniqueness within a process lifetime.  Two `addTask` calls in the same
millisecond (`Date.now()` returning 5 both times) produce two tasks
with the same id `"5"`, so the reachable state
`runOps [add 5 "a", add 5 "b"]` has a duplicated id. -/
theorem claim1_cex :
    ¬ ((runOps [Op.add 5 "a", Op.add 5 "b"]).map TodoItem.id).Nodup := by
  decide

/-- Claim C1 (amended): at every state reachable from the empty list by
addTask/toggleTask/deleteTask/clearCompleted operations in which the
`Date.now()` timestamps observed by the `addTask` calls are pairwise
distinct, the id of every task is unique within the task list. -/
theorem claim1_ids_unique (ops : List Op) (h : (addTimes ops).Nodup) :
    ((runOps ops).map TodoItem.id).Nodup := by
  apply runOps_ids_nodup_aux ops [] (by simp) (by simp)
  exact h.map reprInjective

/-- Claim C1 witness: a concrete run with distinct timestamps has
pairwise-distinct ids. -/
theorem claim1_ids_unique_witness :
    (addTimes [Op.add 1 "a", Op.add 2 "b", Op.toggle "1", Op.delete "2", Op.clear]).Nodup ∧
    ((runOps [Op.add 1 "a", Op.add 2 "b", Op.toggle "1", Op.delete "2", Op.clear]).map
      TodoItem.id).Nodup :=
  ⟨by decide, claim1_ids_unique _ (by decide)⟩

/-! ### addTask, toggleTask, deleteTask, clearCompleted -/

/-- Claim C2: `addTask` trims its input; if the trimmed result is empty
it is a no-op leaving the list unchanged, otherwise it increases the
count by exactly one and the new task carries the trimmed title,
`completed = false` and the freshly generated id, prepended in front of
the previous tasks, which are unchanged. -/
theorem claim2_addTask (now : Nat) (raw : String) (ts : List TodoItem) :
    (jsTrim raw = "" → addTask now raw ts = ts) ∧
    (jsTrim raw ≠ "" →
      addTask now raw ts =
        { id := Nat.repr now, title := jsTrim raw, completed := false } :: ts ∧
      (addTask now raw ts).length = ts.length + 1) := by
  rcases addTask_eq now raw ts with ⟨h, heq⟩ | ⟨h, heq⟩
  · exact ⟨fun _ => heq, fun hc => absurd h hc⟩
  · exact ⟨fun hc => absurd hc h, fun _ => ⟨heq, by rw [heq]; simp⟩⟩

/-- Claim C2 witness: a whitespace-only input is dropped, a padded
title is trimmed and prepended. -/
theorem claim2_addTask_witness :
    (jsTrim "   " = "" ∧ addTask 7 "   " [] = []) ∧
    (jsTrim " Buy milk " ≠ "" ∧
      addTask 7 " Buy milk " [] =
        [{ id := "7", title := "Buy milk", completed := false }]) := by
  constructor
  · exact ⟨by decide, (claim2_addTask 7 "   " []).1 (by decide)⟩
  · refine ⟨by decide, ?_⟩
    have h := ((claim2_addTask 7 " Buy milk " []).2 (by decide)).1
    rw [h]
    decide

/-- Claim C3: `toggleTask i` flips the `completed` flag of exactly the
positions holding the id `i` and nothing else (position by position, so
ids, titles and the ordering are untouched); applying it twice restores
the original list; with an id matching no task it is the identity; and
in a list with pairwise-distinct ids, toggling the id of a member task
`t` rewrites exactly `t`, leaving the tasks before and after it
unchanged. -/
theorem claim3_toggleTask (i : String) (ts : List TodoItem) :
    (∀ k : Nat, (toggleTask i ts)[k]? =
      (ts[k]?).map fun t =>
        if t.id = i then { t with completed := !t.completed } else t) ∧
    toggleTask i (toggleTask i ts) = ts ∧
    ((∀ t ∈ ts, t.id ≠ i) → toggleTask i ts = ts) ∧
    (∀ t ∈ ts, (ts.map TodoItem.id).Nodup → t.id = i →
      ∃ l r, ts = l ++ t :: r ∧
        toggleTask i ts = l ++ { t with completed := !t.completed } :: r) := by
  refine ⟨?_, ?_, ?_, ?_⟩
  · intro k
    simp [toggleTask]
  · simp only [toggleTask, List.map_map]
    have h : ∀ t ∈ ts,
        ((fun task => if task.id = i then { task with completed := !task.completed }
            else task) ∘ fun task =>
          if task.id = i then { task with completed := !task.completed } else task) t
          = id t := by
      intro t _
      obtain ⟨a, b, c⟩ := t
      by_cases h : a = i <;> simp [TodoItem.id, h]
    rw [List.map_congr_left h, List.map_id]
  · intro h
    simp only [toggleTask]
    have h' : ∀ t ∈ ts,
        (if t.id = i then { t with completed := !t.completed } else t) = id t := by
      intro t ht
      simp [h t ht]
    rw [List.map_congr_left h', List.map_id]
  · intro t ht hnd hid
    subst hid
    obtain ⟨l, r, rfl⟩ := List.append_of_mem ht
    refine ⟨l, r, rfl, ?_⟩
    rw [List.map_append] at hnd
    rw [List.nodup_append] at hnd
    obtain ⟨_, hr, hdisj⟩ := hnd
    rw [List.map_cons, List.nodup_cons] at hr
    have hl : ∀ u ∈ l, u.id ≠ t.id := by
      intro u hu hcontra
      exact hdisj (List.mem_map_of_mem TodoItem.id hu) (by simp [hcontra])
    have hr' : ∀ u ∈ r, u.id ≠ t.id := by
      intro u hu hcontra
      have hmem : u.id ∈ List.map TodoItem.id r := List.mem_map_of_mem TodoItem.id hu
      rw [hcontra] at hmem
      exact hr.1 hmem
    simp only [toggleTask, List.map_append, List.map_cons, if_pos rfl]
    rw [List.map_congr_left (fun u hu => by simp [hl u hu] : ∀ u ∈ l, _ = id u),
      List.map_id,
      List.map_congr_left (fun u hu => by simp [hr' u hu] : ∀ u ∈ r, _ = id u),
      List.map_id]
    simp

/-- Claim C3 witness: toggling the id of the second task of a concrete
three-task list flips exactly that task, double-toggle restores the
list, and an unknown id is a no-op. -/
theorem claim3_toggleTask_witness :
    (toggleTask "2" [{ id := "1", title := "a", completed := false },
        { id := "2", title := "b", completed := false },
        { id := "3", title := "c", completed := true }])[1]? =
      some { id := "2", title := "b", completed := true } ∧
    toggleTask "2" (toggleTask "2" [{ id := "1", title := "a", completed := false },
        { id := "2", title := "b", completed := false },
        { id := "3", title := "c", completed := true }]) =
      [{ id := "1", title := "a", completed := false },
        { id := "2", title := "b", completed := false },
        { id := "3", title := "c", completed := true }] ∧
    toggleTask "9" [{ id := "1", title := "a", completed := false }] =
      [{ id := "1", title := "a", completed := false }] := by
  refine ⟨?_, ?_, ?_⟩
  · have h := (claim3_toggleTask "2"
      [{ id := "1", title := "a", completed := false },
        { id := "2", title := "b", completed := false },
        { id := "3", title := "c", completed := true }]).1 1
    rw [h]
    decide
  · exact (claim3_toggleTask "2" _).2.1
  · exact (claim3_toggleTask "9" _).2.2.1 (by decide)

/-- Claim C4 counterexample: `deleteTask` can remove two elements at
once.  The state reached by two same-millisecond `addTask` calls holds
two tasks with id `"5"`; `deleteTask "5"` removes both, so the length
drops by 2, not by 0 or 1. -/
theorem claim4_cex :
    ¬ ((deleteTask "5" (runOps [Op.add 5 "a", Op.add 5 "b"])).length =
          (runOps [Op.add 5 "a", Op.add 5 "b"]).length ∨
        (deleteTask "5" (runOps [Op.add 5 "a", Op.add 5 "b"])).length + 1 =
          (runOps [Op.add 5 "a", Op.add 5 "b"]).length) := by
  decide

/-- Claim C4 (amended): for every task list whose ids are pairwise
distinct and every id string, `deleteTask` keeps the non-matching tasks
in their relative order (it returns a sublist), is a no-op when no task
has the id, removes exactly the one matching element when one is
present, and the length decreases by 0 or 1 only. -/
theorem claim4_deleteTask (i : String) (ts : List TodoItem)
    (hnd : (ts.map TodoItem.id).Nodup) :
    (deleteTask i ts).Sublist ts ∧
    ((∀ t ∈ ts, t.id ≠ i) → deleteTask i ts = ts) ∧
    (∀ t ∈ ts, t.id = i →
      ∃ l r, ts = l ++ t :: r ∧ deleteTask i ts = l ++ r) ∧
    (ts.length = (deleteTask i ts).length ∨
      ts.length = (deleteTask i ts).length + 1) := by
  have hnomatch : (∀ t ∈ ts, t.id ≠ i) → deleteTask i ts = ts := by
    intro h
    apply List.filter_eq_self.mpr
    intro t ht
    simpa using h t ht
  have hmatch : ∀ t ∈ ts, t.id = i →
      ∃ l r, ts = l ++ t :: r ∧ deleteTask i ts = l ++ r := by
    intro t ht hid
    subst hid
    obtain ⟨l, r, rfl⟩ := List.append_of_mem ht
    refine ⟨l, r, rfl, ?_⟩
    rw [List.map_append] at hnd
    rw [List.nodup_append] at hnd
    obtain ⟨_, hr, hdisj⟩ := hnd
    rw [List.map_cons, List.nodup_cons] at hr
    have hl : ∀ u ∈ l, u.id ≠ t.id := by
      intro u hu hcontra
      exact hdisj (List.mem_map_of_mem TodoItem.id hu) (by simp [hcontra])
    have hr' : ∀ u ∈ r, u.id ≠ t.id := by
      intro u hu hcontra
      have hmem : u.id ∈ List.map TodoItem.id r := List.mem_map_of_mem TodoItem.id hu
      rw [hcontra] at hmem
      exact hr.1 hmem
    simp only [deleteTask, List.filter_append, List.filter_cons]
    rw [List.filter_eq_self.mpr (fun u hu => by simpa using hl u hu),
      List.filter_eq_self.mpr (fun u hu => by simpa using hr' u hu)]
    simp
  refine ⟨deleteTask_sublist i ts, hnomatch, hmatch, ?_⟩
  by_cases h : ∃ t ∈ ts, t.id = i
  · obtain ⟨t, ht, hid⟩ := h
    obtain ⟨l, r, hts, hdel⟩ := hmatch t ht hid
    rw [hdel, hts]
    right
    simp
    omega
  · push_neg at h
    rw [hnomatch h]
    left
    rfl

/-- Claim C4 witness: deleting a present id from a distinct-id list
removes exactly that task; deleting an absent id is a no-op. -/
theorem claim4_deleteTask_witness :
    ([{ id := "1", title := "a", completed := false },
        { id := "2", title := "b", completed := true }].map TodoItem.id).Nodup ∧
    (∃ l r, [{ id := "1", title := "a", completed := false },
        { id := "2", title := "b", completed := true }] =
          l ++ { id := "1", title := "a", completed := false } :: r ∧
      deleteTask "1" [{ id := "1", title := "a", completed := false },
        { id := "2", title := "b", completed := true }] = l ++ r) ∧
    deleteTask "9" [{ id := "1", title := "a", completed := false },
        { id := "2", title := "b", completed := true }] =
      [{ id := "1", title := "a", completed := false },
        { id := "2", title := "b", completed := true }] := by
  refine ⟨by decide, ?_, ?_⟩
  · exact (claim4_deleteTask "1" _ (by decide)).2.2.1 _ (by decide) (by decide)
  · exact (claim4_deleteTask "9" _ (by decide)).2.1 (by decide)

/-- Claim C5: `clearCompleted` leaves no completed task, returns the
previously active tasks unchanged (a sublist, so the relative order and
all fields are preserved), keeps every active task, and is a no-op when
no task is completed. -/
theorem claim5_clearCompleted (ts : List TodoItem) :
    (∀ t ∈ clearCompleted ts, t.completed = false) ∧
    (clearCompleted ts).Sublist ts ∧
    (∀ t ∈ ts, t.completed = false → t ∈ clearCompleted ts) ∧
    ((∀ t ∈ ts, t.completed = false) → clearCompleted ts = ts) := by
  refine ⟨?_, clearCompleted_sublist ts, ?_, ?_⟩
  · intro t ht
    have := List.of_mem_filter ht
    simpa using this
  · intro t ht hact
    apply List.mem_filter.mpr
    exact ⟨ht, by simp [hact]⟩
  · intro h
    apply List.filter_eq_self.mpr
    intro t ht
    simp [h t ht]

/-- Claim C5 witness: clearing a mixed list keeps exactly the active
tasks in order; clearing an all-active list is a no-op. -/
theorem claim5_clearCompleted_witness :
    (∀ t ∈ clearCompleted [{ id := "1", title := "a", completed := true },
        { id := "2", title := "b", completed := false },
        { id := "3", title := "c", completed := true }], t.completed = false) ∧
    clearCompleted [{ id := "1", title := "a", completed := false }] =
      [{ id := "1", title := "a", completed := false }] := by
  constructor
  · exact (claim5_clearCompleted _).1
  · exact (claim5_clearCompleted _).2.2.2 (by decide)

/-! ### Derived stats and the filtered view -/

theorem rne_abs_sub (x : ℚ) : |(rne x : ℚ) - x| ≤ 1/2 := by
  have h1 : (⌊x⌋ : ℚ) ≤ x := Int.floor_le x
  have h2 : x < ⌊x⌋ + 1 := Int.lt_floor_add_one x
  unfold rne
  split_ifs with ha hb hc <;> rw [abs_le] <;> push_cast <;> constructor <;> linarith

theorem Int_log_eq_of (q : ℚ) (e : ℤ) (h0 : 0 < q) (h1 : (2:ℚ)^e ≤ q)
    (h2 : q < (2:ℚ)^(e+1)) : Int.log 2 q = e := by
  have hc1 : ((2:ℕ):ℚ)^e ≤ q := by exact_mod_cast h1
  have hc2 : q < ((2:ℕ):ℚ)^(e+1) := by exact_mod_cast h2
  have ha : e ≤ Int.log 2 q := (Int.zpow_le_iff_le_log (by norm_num) h0).mp hc1
  have hb : Int.log 2 q < e + 1 := (Int.lt_zpow_iff_log_lt (by norm_num) h0).mp hc2
  omega

/-- The relative error of one binary64 rounding, for inputs in the
normal range: at most one part in 2^53. -/
theorem fl64_error (q : ℚ) (hq : (2:ℚ)^(-1022:ℤ) ≤ q) : |fl64 q - q| ≤ q / 2^53 := by
  have h0 : 0 < q := lt_of_lt_of_le (by positivity) hq
  have hle : -1022 ≤ Int.log 2 q := by
    have hc : ((2:ℕ):ℚ)^(-1022:ℤ) ≤ q := by exact_mod_cast hq
    exact (Int.zpow_le_iff_le_log (by norm_num) h0).mp hc
  have h2e : (2:ℚ)^(Int.log 2 q) ≤ q := by
    have := Int.zpow_log_le_self (b := 2) (by norm_num) h0 (R := ℚ)
    exact_mod_cast this
  unfold fl64
  rw [if_neg (not_le.mpr h0), max_eq_left hle]
  set e := Int.log 2 q with he
  have hs : (0:ℚ) < 2^(e-52) := zpow_pos (by norm_num) _
  have habs := rne_abs_sub (q / 2^(e-52))
  have hfac : (rne (q / 2^(e-52)) : ℚ) * 2^(e-52) - q =
      ((rne (q / 2^(e-52)) : ℚ) - q / 2^(e-52)) * 2^(e-52) := by
    field_simp
  rw [hfac, abs_mul, abs_of_pos hs]
  have hb : |(rne (q / 2^(e-52)) : ℚ) - q / 2^(e-52)| * 2^(e-52) ≤ (1/2) * 2^(e-52) :=
    mul_le_mul_of_nonneg_right habs (le_of_lt hs)
  refine le_trans hb ?_
  have heq : (1/2) * (2:ℚ)^(e-52) = 2^e / 2^(53:ℕ) := by
    rw [zpow_sub₀ (by norm_num : (2:ℚ) ≠ 0)]
    rw [show ((2:ℚ)^(52:ℤ)) = 2^(52:ℕ) from zpow_natCast 2 52]
    rw [show ((2:ℚ)^(53:ℕ)) = 2^(52:ℕ) * 2 by norm_num [pow_succ]]
    ring
  rw [heq]
  exact (div_le_div_iff_of_pos_right (by positivity)).mpr h2e

theorem round_abs_diff (a b : ℚ) (h : |a - b| ≤ 1/2) : |round a - round b| ≤ 1 := by
  rw [abs_le] at h
  rw [round_eq, round_eq]
  have h1 : a + 1/2 ≤ (b + 1/2) + (1:ℤ) := by push_cast; linarith
  have h2 : b + 1/2 ≤ (a + 1/2) + (1:ℤ) := by push_cast; linarith
  have f1 := Int.floor_mono h1
  have f2 := Int.floor_mono h2
  rw [Int.floor_add_int] at f1 f2
  rw [abs_le]
  omega

/-- Evaluation rule for `fl64` at one input, given its binade and the
rounded significand. -/
theorem fl64_eval (q : ℚ) (e n : ℤ) (h0 : 0 < q) (h1 : (2:ℚ)^e ≤ q)
    (h2 : q < (2:ℚ)^(e+1)) (he : -1022 ≤ e) (hn : rne (q / 2^(e-52)) = n) :
    fl64 q = n * 2^(e-52) := by
  unfold fl64
  rw [if_neg (not_le.mpr h0), Int_log_eq_of q e h0 h1 h2, max_eq_left he, hn]

/-- The double-rounded completion percentage is within 1 of the exact
rounded percentage. -/
theorem rate_close (c t : ℕ) (hc : 1 ≤ c) (hct : c ≤ t) (h32 : t < 2 ^ 32) :
    |round (fl64 (fl64 ((c:ℚ)/t) * 100)) - round ((100 * (c:ℚ)) / t)| ≤ 1 := by
  have ht1 : 1 ≤ t := le_trans hc hct
  have ht0 : (0:ℚ) < t := by exact_mod_cast Nat.lt_of_lt_of_le Nat.zero_lt_one ht1
  have hc0 : (1:ℚ) ≤ (c:ℚ) := by exact_mod_cast hc
  have hQpos : 0 < (c:ℚ)/t := div_pos (by linarith) ht0
  have hQ1 : (c:ℚ)/t ≤ 1 := by
    rw [div_le_one ht0]
    exact_mod_cast hct
  have htle : (t:ℚ) ≤ 2^1022 := by
    have h1 : (t:ℚ) < 2^32 := by exact_mod_cast h32
    have h2 : (2:ℚ)^32 ≤ 2^1022 := pow_le_pow_right₀ (by norm_num) (by norm_num)
    linarith
  have hQge : (2:ℚ)^(-1022:ℤ) ≤ (c:ℚ)/t := by
    have e1 : (2:ℚ)^(-1022:ℤ) = ((2:ℚ)^(1022:ℕ))⁻¹ := by
      rw [zpow_neg]
      norm_num
    have e2 : ((2:ℚ)^(1022:ℕ))⁻¹ ≤ (t:ℚ)⁻¹ := inv_anti₀ ht0 htle
    have e3 : (t:ℚ)⁻¹ ≤ (c:ℚ)/t := by
      rw [inv_eq_one_div]
      exact div_le_div₀ (by linarith) hc0 ht0 le_rfl
    rw [e1]
    exact le_trans e2 e3
  have E1 := fl64_error ((c:ℚ)/t) hQge
  rw [abs_le] at E1
  have hB : (1:ℚ)/2^53 ≤ 1/800 := by norm_num
  have hQ53 : (c:ℚ)/t / 2^53 ≤ 1/2^53 :=
    div_le_div₀ (by norm_num) hQ1 (by norm_num) le_rfl
  set x1 := fl64 ((c:ℚ)/t) with hx1def
  have hx1low : (c:ℚ)/t/2 ≤ x1 := by
    have hCC : (c:ℚ)/t / 2^53 ≤ (c:ℚ)/t / 2 :=
      div_le_div₀ (le_of_lt hQpos) le_rfl (by norm_num) (by norm_num)
    linarith [E1.1]
  have hx1up : x1 ≤ 2 := by linarith [E1.2, hQ53, hB, hQ1]
  have hyge : (2:ℚ)^(-1022:ℤ) ≤ x1 * 100 := by
    have hx : (c:ℚ)/t ≤ x1 * 100 := by linarith [hQpos, hx1low]
    exact le_trans hQge hx
  have E2 := fl64_error (x1 * 100) hyge
  rw [abs_le] at E2
  have hyup : x1 * 100 / 2^53 ≤ 200 / 2^53 :=
    div_le_div₀ (by norm_num) (by linarith [hx1up]) (by norm_num) le_rfl
  have habs1 : |x1 - (c:ℚ)/t| ≤ 1/2^53 := by
    rw [abs_le]
    constructor <;> linarith [E1.1, E1.2, hQ53]
  have hv : |fl64 (x1*100) - 100 * ((c:ℚ)/t)| ≤ 1/2 := by
    rw [abs_le] at habs1 ⊢
    have hd1 : x1 * 100 / 2^53 ≤ 1/4 := le_trans hyup (by norm_num)
    have hx1nn : (0:ℚ) ≤ x1 := by linarith [hx1low, hQpos]
    have hd0 : (0:ℚ) ≤ x1 * 100 / 2^53 := div_nonneg (by linarith) (by norm_num)
    constructor <;> linarith [E2.1, E2.2, habs1.1, habs1.2, hB]
  have hfin := round_abs_diff _ _ hv
  rw [show (100:ℚ) * ((c:ℚ)/t) = (100 * (c:ℚ)) / t from (mul_div_assoc 100 (c:ℚ) t).symm] at hfin
  exact hfin

theorem fl64_of_23_40 : fl64 ((23:ℚ)/40) = 5179139571476070 * 2^((-1:ℤ)-52) := by
  apply fl64_eval ((23:ℚ)/40) (-1) 5179139571476070 (by norm_num) (by norm_num) (by norm_num)
    (by norm_num)
  have hx : (23:ℚ)/40 / 2^((-1:ℤ)-52) = 25895697857380352/5 := by
    rw [show ((-1:ℤ)-52) = -53 from rfl, zpow_neg]
    norm_num
  rw [hx]
  unfold rne
  have hfl : ⌊(25895697857380352:ℚ)/5⌋ = 5179139571476070 := by norm_num
  rw [hfl]
  norm_num

theorem fl64_of_5749 : fl64 ((64739244643450875:ℚ)/2^50) = 8092405580431359 * 2^((5:ℤ)-52) := by
  apply fl64_eval _ 5 _ (by norm_num) (by norm_num) (by norm_num) (by norm_num)
  have hx : (64739244643450875:ℚ)/2^50 / 2^((5:ℤ)-52) = 64739244643450875/8 := by
    rw [show ((5:ℤ)-52) = -47 from rfl, zpow_neg]
    norm_num
  rw [hx]
  unfold rne
  have hfl : ⌊(64739244643450875:ℚ)/8⌋ = 8092405580431359 := by norm_num
  rw [hfl]
  norm_num

/-- Claim C6 counterexample: the completion rate the code computes is
not always `round(100 * completed / total)`.  With 23 completed tasks
out of 40 the double division gives
`(23/40)*100 = 57.49999999999999…`, so `Math.round` yields 57, while
the exact formula rounds 57.5 up to 58. -/
theorem claim6_cex :
    completionRate (List.replicate 23 { id := "1", title := "t", completed := true } ++
        List.replicate 17 { id := "2", title := "u", completed := false }) = 57 ∧
    round ((100 * (completedCount
        (List.replicate 23 { id := "1", title := "t", completed := true } ++
          List.replicate 17 { id := "2", title := "u", completed := false }) : ℚ)) /
      (totalCount (List.replicate 23 { id := "1", title := "t", completed := true } ++
          List.replicate 17 { id := "2", title := "u", completed := false }) : ℚ)) = 58 := by
  have hc : completedCount
      (List.replicate 23 { id := "1", title := "t", completed := true } ++
        List.replicate 17 { id := "2", title := "u", completed := false }) = 23 := by decide
  have ht : totalCount
      (List.replicate 23 { id := "1", title := "t", completed := true } ++
        List.replicate 17 { id := "2", title := "u", completed := false }) = 40 := by decide
  constructor
  · unfold completionRate
    rw [hc, ht, if_pos (by norm_num)]
    rw [show ((23:ℕ):ℚ) = 23 by norm_num, show ((40:ℕ):ℚ) = 40 by norm_num]
    rw [fl64_of_23_40]
    rw [show (5179139571476070:ℚ) * 2^((-1:ℤ)-52) * 100 = 64739244643450875/2^50 by
      rw [show ((-1:ℤ)-52) = -53 from rfl, zpow_neg]
      norm_num]
    rw [fl64_of_5749, round_eq]
    rw [show (8092405580431359:ℚ) * 2^((5:ℤ)-52) + 1/2 = 8162774324609023/2^47 by
      rw [show ((5:ℤ)-52) = -47 from rfl, zpow_neg]
      norm_num]
    norm_num
  · rw [hc, ht]
    rw [show ((23:ℕ):ℚ) = 23 by norm_num, show ((40:ℕ):ℚ) = 40 by norm_num]
    rw [round_eq]
    norm_num

/-- Claim C6 (amended): the derived stats satisfy
`active + completed = total`; the completion rate is 0 for an empty
list; and for a nonempty list (within the JavaScript array-length bound
2^32) the rate the code computes — `Math.round` of the binary64
evaluation of `(completed/total)*100` — differs from the exact
`round(100*completed/total)` by at most 1. -/
theorem claim6_stats (ts : List TodoItem) :
    activeCount ts + completedCount ts = totalCount ts ∧
    (totalCount ts = 0 → completionRate ts = 0) ∧
    (totalCount ts ≠ 0 → totalCount ts < 2 ^ 32 →
      |completionRate ts -
        round ((100 * (completedCount ts : ℚ)) / (totalCount ts : ℚ))| ≤ 1) := by
  refine ⟨?_, ?_, ?_⟩
  · have h : completedCount ts ≤ totalCount ts := List.length_filter_le _ _
    simp only [activeCount]
    omega
  · intro h
    simp [completionRate, h]
  · intro ht h32
    unfold completionRate
    rw [if_pos ht]
    rcases Nat.eq_zero_or_pos (completedCount ts) with hc0 | hc1
    · rw [hc0]
      have hz : fl64 0 = 0 := by unfold fl64; rw [if_pos le_rfl]
      rw [show ((0:ℕ):ℚ) = 0 by norm_num, zero_div, hz, zero_mul, hz, mul_zero, zero_div]
      norm_num
    · exact rate_close (completedCount ts) (totalCount ts) hc1
        (List.length_filter_le _ _) h32

/-- Claim C6 witness: on a list with one completed task out of two, the
code rate is within 1 of the exact rounded percentage (both are 50
here), with the hypotheses discharged concretely. -/
theorem claim6_stats_witness :
    totalCount [{ id := "1", title := "a", completed := true },
      { id := "2", title := "b", completed := false }] ≠ 0 ∧
    totalCount [{ id := "1", title := "a", completed := true },
      { id := "2", title := "b", completed := false }] < 2 ^ 32 ∧
    |completionRate [{ id := "1", title := "a", completed := true },
        { id := "2", title := "b", completed := false }] -
      round ((100 * (completedCount [{ id := "1", title := "a", completed := true },
          { id := "2", title := "b", completed := false }] : ℚ)) /
        (totalCount [{ id := "1", title := "a", completed := true },
          { id := "2", title := "b", completed := false }] : ℚ))| ≤ 1 :=
  ⟨by decide, by decide, (claim6_stats _).2.2 (by decide) (by decide)⟩

/-- Claim C9: `filteredTasks` returns the whole list under the `all`
filter, exactly the tasks with `completed = false` under `active`,
exactly the tasks with `completed = true` under `completed`; and
`setFilter` changes the filter and nothing else (tasks and input are
untouched, and the persisted blob `stringifyTasks tasks` does not
mention the filter at all). -/
theorem claim9_filteredTasks (ts : List TodoItem) (f : Filter) (s : StoreState) :
    filteredTasks Filter.all ts = ts ∧
    (∀ t, t ∈ filteredTasks Filter.active ts ↔ t ∈ ts ∧ t.completed = false) ∧
    (∀ t, t ∈ filteredTasks Filter.completed ts ↔ t ∈ ts ∧ t.completed = true) ∧
    (setFilter f s).tasks = s.tasks ∧ (setFilter f s).inputValue = s.inputValue ∧
    (setFilter f s).filter = f := by
  refine ⟨rfl, ?_, ?_, rfl, rfl, rfl⟩
  · intro t
    simp [filteredTasks, List.mem_filter]
  · intro t
    simp [filteredTasks, List.mem_filter]

/-- Claim C10: for every filter the filtered view is an order-preserving
subsequence of the stored list, and under the `all` filter it is the
stored list itself. -/
theorem claim10_filtered_sublist (f : Filter) (ts : List TodoItem) :
    (filteredTasks f ts).Sublist ts ∧ filteredTasks Filter.all ts = ts := by
  constructor
  · cases f <;> simp [filteredTasks]
  · rfl

/-! ### Serialization round trip -/

theorem hexVal_hexDigitChar : ∀ n : Fin 16, hexVal (hexDigitChar n.val) = some n.val := by
  decide

theorem parseJStringBody_escape :
    ∀ (s : List Char) (rest : List Char),
      parseJStringBody (escapeList s ++ '"' :: rest) = some (s, rest) := by
  intro s
  induction s with
  | nil =>
    intro rest
    rw [show escapeList [] ++ '\"' :: rest = '\"' :: rest by simp [escapeList],
      parseJStringBody.eq_def]
    simp
  | cons c cs ih =>
    intro rest
    simp only [escapeList, List.append_assoc]
    by_cases h1 : c = '"'
    · subst h1
      rw [parseJStringBody.eq_def]
      simp [escapeChar, unescapeChar, ih]
    by_cases h2 : c = '\\'
    · subst h2
      rw [parseJStringBody.eq_def]
      simp [escapeChar, unescapeChar, ih]
    by_cases h3 : c.toNat = 8
    · have hc : c = Char.ofNat 8 := by rw [← h3, Char.ofNat_toNat]
      rw [hc]
      rw [parseJStringBody.eq_def]
      simp [escapeChar, unescapeChar, ih]
    by_cases h4 : c.toNat = 9
    · have hc : c = Char.ofNat 9 := by rw [← h4, Char.ofNat_toNat]
      rw [hc]
      rw [parseJStringBody.eq_def]
      simp [escapeChar, unescapeChar, ih]
    by_cases h5 : c.toNat = 10
    · have hc : c = Char.ofNat 10 := by rw [← h5, Char.ofNat_toNat]
      rw [hc]
      rw [parseJStringBody.eq_def]
      simp [escapeChar, unescapeChar, ih]
    by_cases h6 : c.toNat = 12
    · have hc : c = Char.ofNat 12 := by rw [← h6, Char.ofNat_toNat]
      rw [hc]
      rw [parseJStringBody.eq_def]
      simp [escapeChar, unescapeChar, ih]
    by_cases h7 : c.toNat = 13
    · have hc : c = Char.ofNat 13 := by rw [← h7, Char.ofNat_toNat]
      rw [hc]
      rw [parseJStringBody.eq_def]
      simp [escapeChar, unescapeChar, ih]
    by_cases hlt : c.toNat < 32
    · have he : escapeChar c = ['\\', 'u', '0', '0',
          hexDigitChar (c.toNat / 16), hexDigitChar (c.toNat % 16)] := by
        simp [escapeChar, h1, h2, h3, h4, h5, h6, h7, hlt]
      rw [he]
      have hv1 : hexVal (hexDigitChar (c.toNat / 16)) = some (c.toNat / 16) :=
        hexVal_hexDigitChar ⟨c.toNat / 16, by omega⟩
      have hv2 : hexVal (hexDigitChar (c.toNat % 16)) = some (c.toNat % 16) :=
        hexVal_hexDigitChar ⟨c.toNat % 16, by omega⟩
      rw [parseJStringBody.eq_def]
      have hv0 : hexVal '0' = some 0 := by decide
      have hch : Char.ofNat (c.toNat / 16 * 16 + c.toNat % 16) = c := by
        rw [show c.toNat / 16 * 16 + c.toNat % 16 = c.toNat by omega, Char.ofNat_toNat]
      simp [hv0, hv1, hv2, ih, hch]
    · have he : escapeChar c = [c] := by
        simp [escapeChar, h1, h2, h3, h4, h5, h6, h7, hlt]
      rw [he]
      rw [parseJStringBody.eq_def]
      simp [h1, h2, hlt, ih]

theorem dropLit_append : ∀ (ps rest : List Char), dropLit ps (ps ++ rest) = some rest := by
  intro ps
  induction ps with
  | nil => intro rest; simp [dropLit]
  | cons p ps ih => intro rest; simp [dropLit, ih]

theorem parseJString_encode (s : String) (rest : List Char) :
    parseJString (encodeJString s ++ rest) = some (s.data, rest) := by
  have h : encodeJString s ++ rest = '"' :: (escapeList s.data ++ '"' :: rest) := by
    simp [encodeJString]
  rw [h]
  simp [parseJString, parseJStringBody_escape]

theorem parseBool_encode (b : Bool) (rest : List Char) :
    parseBool (encodeBool b ++ rest) = some (b, rest) := by
  cases b <;> simp [parseBool, encodeBool, dropLit]

theorem parseTaskObj_encode (t : TodoItem) (rest : List Char) :
    parseTaskObj (encodeTask t ++ rest) = some (t, rest) := by
  obtain ⟨i, ti, c⟩ := t
  obtain ⟨il⟩ := i
  obtain ⟨tl⟩ := ti
  simp only [encodeTask, List.append_assoc]
  unfold parseTaskObj
  rw [dropLit_append]
  simp only [Option.bind_eq_bind, Option.some_bind]
  rw [parseJString_encode]
  simp only [Option.some_bind]
  rw [dropLit_append]
  simp only [Option.some_bind]
  rw [parseJString_encode]
  simp only [Option.some_bind]
  rw [dropLit_append]
  simp only [Option.some_bind]
  simp only [List.singleton_append]
  rw [parseBool_encode]
  simp

theorem one_le_length_encodeTask (t : TodoItem) : 1 ≤ (encodeTask t).length := by
  simp [encodeTask, idKey]

theorem length_le_encodeTasksSep : ∀ ts : List TodoItem,
    ts.length ≤ (encodeTasksSep ts).length := by
  intro ts
  induction ts with
  | nil => simp [encodeTasksSep]
  | cons t ts2 ih =>
    cases ts2 with
    | nil =>
      have := one_le_length_encodeTask t
      rw [show encodeTasksSep [t] = encodeTask t from rfl]
      simp only [List.length_cons, List.length_nil]
      omega
    | cons t2 ts3 =>
      have h1 := one_le_length_encodeTask t
      rw [show encodeTasksSep (t :: t2 :: ts3) =
          encodeTask t ++ ',' :: encodeTasksSep (t2 :: ts3) from rfl]
      simp only [List.length_append, List.length_cons] at *
      omega

theorem parseTasksAux_encode :
    ∀ (ts : List TodoItem) (fuel : Nat) (rest : List Char), ts ≠ [] →
      ts.length < fuel →
      parseTasksAux fuel (encodeTasksSep ts ++ ']' :: rest) = some (ts, ']' :: rest) := by
  intro ts
  induction ts with
  | nil => intro fuel rest h; exact absurd rfl h
  | cons t ts2 ih =>
    intro fuel rest _ hfuel
    obtain ⟨f, rfl⟩ : ∃ f, fuel = f + 1 := ⟨fuel - 1, by omega⟩
    cases ts2 with
    | nil =>
      rw [show encodeTasksSep [t] = encodeTask t from rfl]
      simp [parseTasksAux, parseTaskObj_encode]
    | cons t2 ts3 =>
      rw [show encodeTasksSep (t :: t2 :: ts3) =
          encodeTask t ++ ',' :: encodeTasksSep (t2 :: ts3) from rfl]
      have happ : (encodeTask t ++ ',' :: encodeTasksSep (t2 :: ts3)) ++ ']' :: rest =
          encodeTask t ++ ',' :: (encodeTasksSep (t2 :: ts3) ++ ']' :: rest) := by
        simp
      rw [happ]
      simp only [parseTasksAux, parseTaskObj_encode, Option.bind_eq_bind, Option.some_bind]
      rw [ih f rest (by simp) (by simp at hfuel ⊢; omega)]
      simp

/-- Claim C8: serialization round-trips.  For every task list,
including the empty list, parsing its `JSON.stringify` image restores
the list exactly, every id, title and completed flag included (titles
and ids may use any characters; escaping is inverted correctly). -/
theorem claim8_roundTrip (ts : List TodoItem) :
    parseTasks (stringifyTasks ts) = some ts := by
  cases ts with
  | nil => rfl
  | cons t ts2 =>
    show parseTasksChars ('[' :: (encodeTasksSep (t :: ts2) ++ [']'])) = some (t :: ts2)
    have hlen := length_le_encodeTasksSep (t :: ts2)
    have h1 := one_le_length_encodeTask t
    have hne : encodeTasksSep (t :: ts2) ++ [']'] ≠ [']'] := by
      intro hcontra
      have hc := congrArg List.length hcontra
      simp only [List.length_append, List.length_cons, List.length_nil] at hc
      cases ts2 with
      | nil => simp only [encodeTasksSep] at hc; omega
      | cons t2 ts3 =>
        rw [show encodeTasksSep (t :: t2 :: ts3) =
            encodeTask t ++ ',' :: encodeTasksSep (t2 :: ts3) from rfl] at hc
        simp only [List.length_append, List.length_cons] at hc
        omega
    simp only [parseTasksChars, if_pos rfl]
    rw [if_neg hne]
    rw [show encodeTasksSep (t :: ts2) ++ [']'] =
        encodeTasksSep (t :: ts2) ++ ']' :: ([] : List Char) from rfl]
    rw [parseTasksAux_encode (t :: ts2) _ [] (by simp)
      (by simp only [List.length_append, List.length_cons, List.length_nil] at *; omega)]
    simp


/-! ### Hydration -/

end CheckOff
